import Mathlib

/-!
Shallow embedding of the adaptive recommendation and scoring engine of the
two dashboard sources (CODE-EDUCATIONAL-TRANSFORMATION-06.py and
CODE-IDM-04-E.py).

Modelling conventions:
* Python floats are embedded as exact rationals (ℚ); the one transcendental
  function used by the engine, numpy exp, is abstracted as an explicit
  function parameter named pexp.  The real logistic model of section 4.4 is
  additionally instantiated over ℝ with Real.exp for the analytic claims.
* pandas DataFrames become lists of records.  The final multi-column
  sort_values(["domain", "gap"]) is implemented by pandas with the stable
  np.lexsort, so it is embedded as the stable List.mergeSort on that key.
  The single-column sort_values("gap") uses the default kind (quicksort),
  which pandas documents as not stable: its contract guarantees only a
  gap-sorted permutation of the input, captured by the predicate
  gapSortedPermOf; the executable engine fixes one admissible
  implementation of that contract (mergeSort) so concrete runs can be
  evaluated, and no theorem relies on which admissible tie order it picks.
  groupby sorts its group keys in ascending order, as pandas does.
* numpy random draws become explicit function arguments (a Poisson draw is a
  natural number, a normal draw an arbitrary rational), so theorems quantify
  over every possible draw.
* Python code that raises (df.loc[...].iloc[0] on an empty selection) is
  embedded in the Option monad: none is an uncaught exception.
-/

/-- The fixed domain list of the first dashboard (module constant DOMAINS). -/
def DOMAINS : List String := ["Algebra", "Probability", "Calculus", "Statistics", "Programming"]

/-- np.clip over rationals: clip x lo hi = min (max x lo) hi. -/
def clip (x lo hi : ℚ) : ℚ := min (max x lo) hi

/-- pandas Series.mean over rationals: sum divided by length (0 on empty in ℚ). -/
def listMean (l : List ℚ) : ℚ := l.sum / (l.length : ℚ)

/-- p_success(a, b, theta) = 1 / (1 + exp(-a * (theta - b))).  The exponential
is the explicit argument pexp so the same definition serves the exact ℚ
embedding of the engine and the ℝ instantiation with Real.exp. -/
def p_success {α : Type} [DivisionRing α] (pexp : α → α) (a b theta : α) : α :=
  1 / (1 + pexp (-(a * (theta - b))))

/-- One row of the simulated student table (simulate_students):
per-domain affinity columns become one function from domain name to value. -/
structure Learner where
  student_id : ℕ
  ability_g : ℚ
  engagement : ℚ
  pace_min_day : ℚ
  goal_hours_week : ℚ
  affinity : String → ℚ

/-- One row of the item bank (simulate_item_bank). -/
structure Item where
  item_id : ℕ
  domain : String
  a : ℚ
  b : ℚ
  t_expected_min : ℚ
deriving DecidableEq

/-- One row of the trajectory table (simulate_trajectories); the calendar date
becomes the day index k of the simulation loop. -/
structure TrajRec where
  student_id : ℕ
  domain : String
  day : ℕ
  minutes : ℤ
  micro_score : ℚ
deriving DecidableEq

/-- One row of the recommendation table built by recommend_items: the
candidate item together with its gap, p_success and theta_d columns. -/
structure Recommendation where
  item : Item
  gap : ℚ
  p_success : ℚ
  theta_d : ℚ
deriving DecidableEq

/-- simulate_trajectories: one record per (student, domain, day).  minutesDraw
models np.random.poisson (a natural number, given the rate lam / 4.5) and
noiseDraw models np.random.normal(0, 0.08); both may depend on the triple. -/
def simulate_trajectories (df_students : List Learner) (domains : List String) (days : ℕ)
    (minutesDraw : ℕ → String → ℕ → ℚ → ℕ) (noiseDraw : ℕ → String → ℕ → ℚ) : List TrajRec :=
  df_students.flatMap fun r =>
    domains.flatMap fun d =>
      let lam : ℚ := max 5 (r.pace_min_day * (1/2 + 1/2 * (r.affinity d + 2) / 4))
      (List.range days).map fun k =>
        let minutes : ℤ := (minutesDraw r.student_id d k (lam / (9/2)) : ℤ)
        let mu : ℚ := 11/20 + 9/50 * r.ability_g + 3/25 * r.affinity d
          + noiseDraw r.student_id d k
        { student_id := r.student_id, domain := d, day := k, minutes := minutes,
          micro_score := clip mu (1/20) (49/50) }

/-- The history selection of recommend_items:
score_history[(score_history.student_id == student_id) & (score_history.domain == d)]. -/
def histFor (score_history : List TrajRec) (student_id : ℕ) (d : String) : List TrajRec :=
  score_history.filter fun r => r.student_id == student_id && r.domain == d

/-- The per-domain ability estimate of recommend_items.  The history branch is
(mean micro_score - 0.5) / 0.2 clipped to [-2.5, 2.5]; otherwise the learner
row is looked up (df.loc[...].iloc[0], i.e. none when absent) and the estimate
is 0.7 * ability_g + 0.3 * affinity_d, clipped to the same interval. -/
def theta_for (score_history : List TrajRec) (df_students : List Learner)
    (student_id : ℕ) (d : String) : Option ℚ :=
  let hist := histFor score_history student_id d
  if hist.length > 0 then
    some (clip ((listMean (hist.map (·.micro_score)) - 1/2) / (1/5)) (-(5/2)) (5/2))
  else
    (df_students.find? fun s => s.student_id == student_id).map fun row =>
      clip (row.ability_g * (7/10) + row.affinity d * (3/10)) (-(5/2)) (5/2)

/-- The candidate rows of recommend_items for one domain: the item bank rows of
that domain, in bank order, with the gap, p_success and theta_d columns. -/
def candidatesFor (pexp : ℚ → ℚ) (df_items : List Item) (theta : ℚ) (d : String) :
    List Recommendation :=
  (df_items.filter fun it => it.domain == d).map fun it =>
    { item := it, gap := |it.b - theta|, p_success := p_success pexp it.a it.b theta,
      theta_d := theta }

/-- The sort key of candidates.sort_values("gap"). -/
def gapLE (r s : Recommendation) : Bool := decide (r.gap ≤ s.gap)

/-- candidates.sort_values("gap").head(3).  sort_values on a single column
uses the default kind (quicksort), which is not stable, so the program only
guarantees a gap-sorted permutation (see gapSortedPermOf); to keep the
embedded engine executable this definition fixes one admissible
implementation of that contract, the sort List.mergeSort.  The claims proved
about the engine output do not depend on which admissible tie order the
implementation picks. -/
def topFor (pexp : ℚ → ℚ) (df_items : List Item) (theta : ℚ) (d : String) :
    List Recommendation :=
  ((candidatesFor pexp df_items theta d).mergeSort gapLE).take 3

/-- The contract of candidates.sort_values("gap") with the default kind
(quicksort, documented by pandas as not stable): the result is some
permutation of the candidate rows that is sorted by gap ascending; the
relative order of equal-gap rows is unspecified. -/
def gapSortedPermOf (cand ranking : List Recommendation) : Prop :=
  ranking.Perm cand ∧ ranking.Pairwise fun r s => r.gap ≤ s.gap

/-- The sort key of the final sort_values(["domain", "gap"]): domain names in
ascending string order, then gap ascending. -/
def domLE (r s : Recommendation) : Bool :=
  decide (r.item.domain < s.item.domain)
    || (r.item.domain == s.item.domain && decide (r.gap ≤ s.gap))

/-- The for-loop of recommend_items over the domain list: each domain appends
its top rows; a failed learner lookup aborts the whole call (IndexError). -/
def recLoop (pexp : ℚ → ℚ) (student_id : ℕ) (df_students : List Learner)
    (df_items : List Item) (score_history : List TrajRec) :
    List String → Option (List Recommendation)
  | [] => some []
  | d :: ds =>
    match theta_for score_history df_students student_id d with
    | none => none
    | some theta =>
      (recLoop pexp student_id df_students df_items score_history ds).map
        fun rest => topFor pexp df_items theta d ++ rest

/-- recommend_items: per-domain tops concatenated in DOMAINS order, then
pd.concat(recs).sort_values(["domain", "gap"]). -/
def recommend_items (pexp : ℚ → ℚ) (student_id : ℕ) (df_students : List Learner)
    (df_items : List Item) (score_history : List TrajRec) : Option (List Recommendation) :=
  (recLoop pexp student_id df_students df_items score_history DOMAINS).map
    fun recs => recs.mergeSort domLE

/-- One row of the recent_progress aggregate: summed minutes and mean
micro_score of one (student, domain) pair inside the lookback window. -/
structure AggRow where
  student_id : ℕ
  domain : String
  minutes : ℤ
  micro_mean : ℚ
deriving DecidableEq

/-- One cell of the weekly plan (df_sched rows of build_agent_plan). -/
structure PlanCell where
  domain : String
  day : String
  hours : ℚ
deriving DecidableEq

/-- The raw priority weights of build_agent_plan: equal weights over the full
domain list when the learner has no recent rows, otherwise 1 - micro_mean
(weak), micro_mean (strong) or 1.0 (any other priority string). -/
def weightsRaw (df7s : List AggRow) (priority : String) : List (String × ℚ) :=
  if df7s.length = 0 then
    DOMAINS.map fun d => (d, 1 / (DOMAINS.length : ℚ))
  else if priority == "weak" then
    df7s.map fun r => (r.domain, 1 - r.micro_mean)
  else if priority == "strong" then
    df7s.map fun r => (r.domain, r.micro_mean)
  else
    df7s.map fun r => (r.domain, 1)

/-- The sort key of pandas string group keys: ascending lexicographic order. -/
def strLE (a b : String) : Bool := decide (a ≤ b)

/-- weights.groupby("domain").agg(weight = mean): one row per distinct domain,
in ascending domain order, carrying the mean of that domain's weights. -/
def groupMeanWeights (ws : List (String × ℚ)) : List (String × ℚ) :=
  ((ws.map Prod.fst).dedup.mergeSort strLE).map fun d =>
    (d, listMean ((ws.filter fun p => p.1 == d).map Prod.snd))

/-- weights["weight"] / weights["weight"].sum(). -/
def normalizeWeights (ws : List (String × ℚ)) : List (String × ℚ) :=
  let s := (ws.map Prod.snd).sum
  ws.map fun p => (p.1, p.2 / s)

/-- The fixed day-shape vector np.array([1.1, 1.1, 1.1, 1.0, 1.0, 0.8, 0.9]). -/
def dayShape : List ℚ := [11/10, 11/10, 11/10, 1, 1, 4/5, 9/10]

/-- The seven day names of the weekly plan. -/
def DAYS : List String := ["Mon", "Tue", "Wed", "Thu", "Fri", "Sat", "Sun"]

/-- The normalized day weights: the shape vector scaled by
(0.8 + 0.4 * engagement) and renormalized to sum to 1. -/
def dayWeightsNorm (engagement : ℚ) : List ℚ :=
  let dw := dayShape.map fun v => v * (4/5 + 2/5 * engagement)
  dw.map fun v => v / dw.sum

/-- The scheduling loop of build_agent_plan: for each weighted domain, hours =
weight * goal are spread over the seven days by the normalized day weights. -/
def planCells (w : List (String × ℚ)) (engagement goal_h : ℚ) : List PlanCell :=
  w.flatMap fun p =>
    (DAYS.zip (dayWeightsNorm engagement)).map fun q =>
      { domain := p.1, day := q.1, hours := p.2 * goal_h * q.2 }

/-- build_agent_plan: priority weights from the learner's recent aggregate
rows, grouped and normalized, then spread over the seven days.  The learner
lookup for the engagement factor (DF_STUD.loc[...].iloc[0]) raises when the
id is absent, embedded as none. -/
def build_agent_plan (df7 : List AggRow) (df_students : List Learner) (student_id : ℕ)
    (priority : String) (goal_h : ℚ) : Option (List PlanCell) :=
  let df7s := df7.filter fun r => r.student_id == student_id
  let w := normalizeWeights (groupMeanWeights (weightsRaw df7s priority))
  (df_students.find? fun s => s.student_id == student_id).map fun row =>
    planCells w row.engagement goal_h

/-- Outcome of the remote chat-completions call inside the try block of
safe_openai_call: an exception with its message, a response without content,
or a response with content. -/
inductive RemoteOutcome where
  | raised (msg : String)
  | noContent
  | content (text : String)
deriving DecidableEq

/-- safe_openai_call of CODE-IDM-04-E.py: library availability and the api key
are checked before any network call; every failure is returned as a fixed
string, never raised. -/
def safe_openai_call (openai_ok : Bool) (api_key : String)
    (history : List (String × String)) (remote : RemoteOutcome) : String :=
  if !openai_ok then
    "The environment does not have the OpenAI library installed. Please install it using \x27pip install openai\x27."
  else if api_key == "" then
    "No API Key received. Please enter your API Key at the top and resend your question."
  else
    match remote with
    | .noContent => "The API responded without content. Try again."
    | .content t => t
    | .raised e =>
      "The digital mentor is active with OpenAI, but the call failed.\nDetails: "
        ++ e ++ "\nYou can try again or check your key."

/-- The explanation branch of the update_learning callback of
CODE-EDUCATIONAL-TRANSFORMATION-06.py: with no api key stored, a fixed
placeholder is returned before any call; otherwise the try block yields the
response text or the fixed failure text with the exception message. -/
def update_learning_explanation (api_key_present : Bool)
    (remote : Except String String) : String :=
  if !api_key_present then
    "Enter your OpenAI API key at the top to get an AI-generated explanation for these recommendations."
  else
    match remote with
    | .ok t => t
    | .error e => "AI explanation could not be retrieved: " ++ e

/-! ## Basic lemmas about the embedded primitives -/

lemma le_clip (x lo hi : ℚ) (h : lo ≤ hi) : lo ≤ clip x lo hi :=
  le_min (le_max_right x lo) h

lemma clip_le_hi (x lo hi : ℚ) : clip x lo hi ≤ hi :=
  min_le_right _ _

/-! ## C4: the logistic scoring model over ℝ -/

/-- C4.  For a > 0 the logistic link p_success(a, b, theta) with the real
exponential lies strictly in (0, 1), is strictly increasing in theta, and
equals 0.5 exactly when theta = b. -/
theorem p_success_logistic_properties (a b : ℝ) (ha : 0 < a) :
    (∀ theta : ℝ, 0 < p_success Real.exp a b theta ∧ p_success Real.exp a b theta < 1) ∧
    (StrictMono fun theta : ℝ => p_success Real.exp a b theta) ∧
    (∀ theta : ℝ, p_success Real.exp a b theta = 1/2 ↔ theta = b) := by
  have hE : ∀ theta : ℝ, 0 < Real.exp (-(a * (theta - b))) := fun _ => Real.exp_pos _
  have hden : ∀ theta : ℝ, 0 < 1 + Real.exp (-(a * (theta - b))) := fun t => by
    have := hE t; linarith
  refine ⟨fun t => ⟨one_div_pos.mpr (hden t), ?_⟩, ?_, fun t => ⟨fun h => ?_, fun h => ?_⟩⟩
  · rw [p_success, div_lt_one (hden t)]
    have := hE t; linarith
  · intro t₁ t₂ hlt
    have hmul : a * (t₁ - b) < a * (t₂ - b) :=
      mul_lt_mul_of_pos_left (sub_lt_sub_right hlt b) ha
    have hexp : Real.exp (-(a * (t₂ - b))) < Real.exp (-(a * (t₁ - b))) :=
      Real.exp_lt_exp.mpr (by linarith)
    simpa [p_success] using one_div_lt_one_div_of_lt (hden t₂) (by linarith)
  · rw [p_success] at h
    have h2 : 1 + Real.exp (-(a * (t - b))) = 2 := by
      have hne := (hden t).ne'
      field_simp at h
      linarith
    have h1 : Real.exp (-(a * (t - b))) = 1 := by linarith
    have h0 : a * (t - b) = 0 := by
      rw [← Real.exp_zero] at h1
      have := Real.exp_eq_exp.mp h1
      linarith
    rcases mul_eq_zero.mp h0 with h' | h'
    · exact absurd h' ha.ne'
    · exact sub_eq_zero.mp h'
  · subst h
    rw [p_success]
    norm_num

/-- Witness for C4 at a = 1, b = 0, theta = 0. -/
theorem p_success_logistic_properties_witness :
    (0:ℝ) < 1 ∧ p_success Real.exp (1:ℝ) 0 0 = 1/2 :=
  ⟨one_pos, ((p_success_logistic_properties 1 0 one_pos).2.2 0).mpr rfl⟩

/-! ## C8: bounds of the simulated trajectory records -/

/-- C8.  Every record produced by the trajectory simulator has minutes ≥ 0 and
micro-score in [0.05, 0.98], for every learner, domain and day, regardless of
the random draws. -/
theorem trajectory_bounds (df_students : List Learner) (domains : List String) (days : ℕ)
    (minutesDraw : ℕ → String → ℕ → ℚ → ℕ) (noiseDraw : ℕ → String → ℕ → ℚ)
    (r : TrajRec)
    (hr : r ∈ simulate_trajectories df_students domains days minutesDraw noiseDraw) :
    0 ≤ r.minutes ∧ 1/20 ≤ r.micro_score ∧ r.micro_score ≤ 49/50 := by
  simp only [simulate_trajectories, List.mem_flatMap, List.mem_map, List.mem_range] at hr
  obtain ⟨s, hs, d, hd, k, hk, rfl⟩ := hr
  exact ⟨Int.natCast_nonneg _, le_clip _ _ _ (by norm_num), clip_le_hi _ _ _⟩

/-- Witness for C8: a concrete learner, draw functions and record. -/
theorem trajectory_bounds_witness :
    (⟨0, "Algebra", 0, 2, 11/20⟩ : TrajRec) ∈
      simulate_trajectories [⟨0, 0, 0, 0, 0, fun _ => 0⟩] DOMAINS 1
        (fun _ _ _ _ => 2) (fun _ _ _ => 0) ∧
    (0:ℤ) ≤ 2 ∧ (1:ℚ)/20 ≤ 11/20 ∧ (11:ℚ)/20 ≤ 49/50 := by
  have hmem : (⟨0, "Algebra", 0, 2, 11/20⟩ : TrajRec) ∈
      simulate_trajectories [⟨0, 0, 0, 0, 0, fun _ => 0⟩] DOMAINS 1
        (fun _ _ _ _ => 2) (fun _ _ _ => 0) := by
    simp [simulate_trajectories, DOMAINS, clip]
    norm_num [min_def, max_def]
  have h := trajectory_bounds [⟨0, 0, 0, 0, 0, fun _ => 0⟩] DOMAINS 1
    (fun _ _ _ _ => 2) (fun _ _ _ => 0) ⟨0, "Algebra", 0, 2, 11/20⟩ hmem
  exact ⟨hmem, h.1, h.2.1, h.2.2⟩

/-! ## C9: the explanation collaborators degrade gracefully without credential -/

/-- C9.  With no credential configured (empty api key in safe_openai_call of
the second dashboard; no stored key in the update_learning callback of the
first), the explanation collaborators return their fixed, non-empty fallback
strings, independent of the remote outcome, and never raise: both are total
functions into String. -/
theorem no_credential_fallback (history : List (String × String))
    (r1 r2 : RemoteOutcome) (x1 x2 : Except String String) :
    safe_openai_call true "" history r1 =
      "No API Key received. Please enter your API Key at the top and resend your question." ∧
    safe_openai_call true "" history r1 ≠ "" ∧
    safe_openai_call true "" history r1 = safe_openai_call true "" history r2 ∧
    update_learning_explanation false x1 =
      "Enter your OpenAI API key at the top to get an AI-generated explanation for these recommendations." ∧
    update_learning_explanation false x1 ≠ "" ∧
    update_learning_explanation false x1 = update_learning_explanation false x2 := by
  have h1 : ("No API Key received. Please enter your API Key at the top and resend your question." : String) ≠ "" := by
    decide
  have h2 : ("Enter your OpenAI API key at the top to get an AI-generated explanation for these recommendations." : String) ≠ "" := by
    decide
  exact ⟨rfl, h1, rfl, rfl, h2, rfl⟩

/-! ## Lemmas about the recommendation engine -/

lemma gapLE_trans : ∀ x y z : Recommendation, gapLE x y → gapLE y z → gapLE x z := by
  intro x y z hxy hyz
  simp only [gapLE, decide_eq_true_eq] at *
  exact le_trans hxy hyz

lemma gapLE_total : ∀ x y : Recommendation, gapLE x y || gapLE y x := by
  intro x y
  simp only [gapLE, Bool.or_eq_true, decide_eq_true_eq]
  exact le_total _ _

lemma domLE_iff (r s : Recommendation) :
    domLE r s = true ↔
      (r.item.domain < s.item.domain ∨ (r.item.domain = s.item.domain ∧ r.gap ≤ s.gap)) := by
  simp [domLE, Bool.or_eq_true, Bool.and_eq_true, decide_eq_true_eq, beq_iff_eq]

lemma domLE_trans : ∀ x y z : Recommendation, domLE x y → domLE y z → domLE x z := by
  intro x y z hxy hyz
  rw [domLE_iff] at hxy hyz ⊢
  rcases hxy with h1 | ⟨e1, g1⟩ <;> rcases hyz with h2 | ⟨e2, g2⟩
  · exact Or.inl (lt_trans h1 h2)
  · exact Or.inl (by rw [← e2]; exact h1)
  · exact Or.inl (by rw [e1]; exact h2)
  · exact Or.inr ⟨e1.trans e2, le_trans g1 g2⟩

lemma domLE_total : ∀ x y : Recommendation, domLE x y || domLE y x := by
  intro x y
  simp only [Bool.or_eq_true, domLE_iff]
  rcases lt_trichotomy x.item.domain y.item.domain with h | h | h
  · exact Or.inl (Or.inl h)
  · rcases le_total x.gap y.gap with g | g
    · exact Or.inl (Or.inr ⟨h, g⟩)
    · exact Or.inr (Or.inr ⟨h.symm, g⟩)
  · exact Or.inr (Or.inl h)

lemma mem_candidatesFor {pexp : ℚ → ℚ} {df_items : List Item} {theta : ℚ} {d : String}
    {r : Recommendation} (h : r ∈ candidatesFor pexp df_items theta d) :
    r.item ∈ df_items ∧ r.item.domain = d ∧ r.gap = |r.item.b - theta| ∧ r.theta_d = theta := by
  simp only [candidatesFor, List.mem_map, List.mem_filter] at h
  obtain ⟨it, ⟨hit, hdom⟩, rfl⟩ := h
  exact ⟨hit, by simpa using hdom, rfl, rfl⟩

lemma mem_topFor {pexp : ℚ → ℚ} {df_items : List Item} {theta : ℚ} {d : String}
    {r : Recommendation} (h : r ∈ topFor pexp df_items theta d) :
    r ∈ candidatesFor pexp df_items theta d :=
  List.mem_mergeSort.mp (List.take_subset 3 _ h)

lemma recLoop_mem (pexp : ℚ → ℚ) (student_id : ℕ) (df_students : List Learner)
    (df_items : List Item) (score_history : List TrajRec) :
    ∀ (ds : List String) (res : List Recommendation),
      recLoop pexp student_id df_students df_items score_history ds = some res →
      ∀ r ∈ res, ∃ d ∈ ds, ∃ theta, theta_for score_history df_students student_id d = some theta ∧
        r ∈ topFor pexp df_items theta d := by
  intro ds
  induction ds with
  | nil =>
    intro res h r hr
    simp only [recLoop, Option.some.injEq] at h
    subst h
    simp at hr
  | cons d ds ih =>
    intro res h r hr
    rw [recLoop] at h
    cases htheta : theta_for score_history df_students student_id d with
    | none =>
      rw [htheta] at h
      simp at h
    | some theta =>
      rw [htheta] at h
      cases hrec : recLoop pexp student_id df_students df_items score_history ds with
      | none =>
        rw [hrec] at h
        simp at h
      | some rest =>
        rw [hrec] at h
        simp only [Option.map_some', Option.some.injEq] at h
        subst h
        rcases List.mem_append.mp hr with h1 | h2
        · exact ⟨d, List.mem_cons_self _ _, theta, htheta, h1⟩
        · obtain ⟨d', hd', theta', ht', hr'⟩ := ih rest hrec r h2
          exact ⟨d', List.mem_cons_of_mem _ hd', theta', ht', hr'⟩

lemma recLoop_eq_none (pexp : ℚ → ℚ) (student_id : ℕ) (df_students : List Learner)
    (df_items : List Item) (score_history : List TrajRec) :
    ∀ (ds : List String) (d : String), d ∈ ds →
      theta_for score_history df_students student_id d = none →
      recLoop pexp student_id df_students df_items score_history ds = none := by
  intro ds
  induction ds with
  | nil =>
    intro d h
    simp at h
  | cons d0 ds ih =>
    intro d hd hnone
    rcases List.mem_cons.mp hd with rfl | hd'
    · rw [recLoop, hnone]
    · rw [recLoop]
      cases htheta : theta_for score_history df_students student_id d0 with
      | none => rfl
      | some theta =>
        rw [ih d hd' hnone]
        rfl

lemma mem_recommend {pexp : ℚ → ℚ} {student_id : ℕ} {df_students : List Learner}
    {df_items : List Item} {score_history : List TrajRec} {out : List Recommendation}
    (h : recommend_items pexp student_id df_students df_items score_history = some out)
    {r : Recommendation} (hr : r ∈ out) :
    ∃ d ∈ DOMAINS, ∃ theta, theta_for score_history df_students student_id d = some theta ∧
      r ∈ topFor pexp df_items theta d := by
  rw [recommend_items] at h
  obtain ⟨recs, hrec, rfl⟩ := Option.map_eq_some'.mp h
  exact recLoop_mem pexp student_id df_students df_items score_history DOMAINS recs hrec r
    (List.mem_mergeSort.mp hr)

/-! ## C2: per-domain ranking by gap and top-3 selection -/

/-- C2 as stated is false: its tie-break clause asserts what the program's
sort does not guarantee.  sort_values("gap") uses the default kind
(quicksort), whose contract is only a gap-sorted permutation (gapSortedPermOf)
with unspecified tie order.  Concretely: with two equal-gap Algebra
candidates, the output that swaps them is admissible for that contract, yet
the pair, which sits in original bank order in the candidate list with equal
gaps, does not keep its original order there — refuting "ties broken by
original item order (a stable sort)". -/
theorem per_domain_stable_tiebreak_refuted :
    gapSortedPermOf
      (candidatesFor (fun _ => 0) [⟨0, "Algebra", 1, 1, 5⟩, ⟨1, "Algebra", 1, 1, 5⟩]
        0 "Algebra")
      [⟨⟨1, "Algebra", 1, 1, 5⟩, 1, 1, 0⟩, ⟨⟨0, "Algebra", 1, 1, 5⟩, 1, 1, 0⟩] ∧
    [(⟨⟨0, "Algebra", 1, 1, 5⟩, 1, 1, 0⟩ : Recommendation),
        ⟨⟨1, "Algebra", 1, 1, 5⟩, 1, 1, 0⟩].Sublist
      (candidatesFor (fun _ => 0) [⟨0, "Algebra", 1, 1, 5⟩, ⟨1, "Algebra", 1, 1, 5⟩]
        0 "Algebra") ∧
    (⟨⟨0, "Algebra", 1, 1, 5⟩, 1, 1, 0⟩ : Recommendation).gap =
      (⟨⟨1, "Algebra", 1, 1, 5⟩, 1, 1, 0⟩ : Recommendation).gap ∧
    ¬ [(⟨⟨0, "Algebra", 1, 1, 5⟩, 1, 1, 0⟩ : Recommendation),
        ⟨⟨1, "Algebra", 1, 1, 5⟩, 1, 1, 0⟩].Sublist
      [⟨⟨1, "Algebra", 1, 1, 5⟩, 1, 1, 0⟩, ⟨⟨0, "Algebra", 1, 1, 5⟩, 1, 1, 0⟩] := by
  have hcand : candidatesFor (fun _ => 0)
      [⟨0, "Algebra", 1, 1, 5⟩, ⟨1, "Algebra", 1, 1, 5⟩] 0 "Algebra" =
      [⟨⟨0, "Algebra", 1, 1, 5⟩, 1, 1, 0⟩, ⟨⟨1, "Algebra", 1, 1, 5⟩, 1, 1, 0⟩] := by
    simp +decide [candidatesFor, p_success]
  refine ⟨⟨?_, ?_⟩, ?_, rfl, ?_⟩
  · rw [hcand]
    exact List.Perm.swap _ _ _
  · norm_num [List.pairwise_cons]
  · rw [hcand]
  · intro h
    have heq := h.eq_of_length rfl
    simp at heq

/-- C2 amended.  For every domain, every output admissible for the program's
per-domain sort contract (a gap-sorted permutation of the domain's candidate
rows; the default quicksort of sort_values leaves tie order unspecified)
yields as its first three rows a selection with exactly min 3 n rows, gaps
ascending, drawn from the candidates of that domain, and with every selected
gap at most every unselected gap; the engine's executable topFor is the
take-3 of one such admissible ranking. -/
theorem per_domain_ranking_top3_any_tie_order (pexp : ℚ → ℚ) (df_items : List Item)
    (theta : ℚ) (d : String) (ranking : List Recommendation)
    (hr : gapSortedPermOf (candidatesFor pexp df_items theta d) ranking) :
    (ranking.take 3).length = min 3 (candidatesFor pexp df_items theta d).length ∧
    (ranking.take 3).Pairwise (fun r s => r.gap ≤ s.gap) ∧
    (∀ r ∈ ranking.take 3, r ∈ candidatesFor pexp df_items theta d ∧ r.item.domain = d) ∧
    (∀ r ∈ ranking.take 3, ∀ s ∈ ranking.drop 3, r.gap ≤ s.gap) ∧
    gapSortedPermOf (candidatesFor pexp df_items theta d)
      ((candidatesFor pexp df_items theta d).mergeSort gapLE) ∧
    topFor pexp df_items theta d =
      ((candidatesFor pexp df_items theta d).mergeSort gapLE).take 3 := by
  obtain ⟨hperm, hsort⟩ := hr
  refine ⟨?_, ?_, ?_, ?_, ⟨List.mergeSort_perm _ _, ?_⟩, rfl⟩
  · rw [List.length_take, hperm.length_eq]
  · exact hsort.sublist (List.take_sublist 3 ranking)
  · intro r hrt
    have hrm := hperm.mem_iff.mp (List.take_subset 3 ranking hrt)
    exact ⟨hrm, (mem_candidatesFor hrm).2.1⟩
  · intro r hrt s hsd
    have h2 := hsort
    rw [← List.take_append_drop 3 ranking] at h2
    exact (List.pairwise_append.mp h2).2.2 r hrt s hsd
  · exact (List.sorted_mergeSort gapLE_trans gapLE_total _).imp
      (fun h => by simpa [gapLE] using h)

/-- Witness for the amended C2 at a concrete admissible ranking. -/
theorem per_domain_ranking_top3_any_tie_order_witness :
    gapSortedPermOf (candidatesFor (fun _ => 0) [⟨0, "Algebra", 1, 1, 5⟩] 0 "Algebra")
      [⟨⟨0, "Algebra", 1, 1, 5⟩, 1, 1, 0⟩] ∧
    (([(⟨⟨0, "Algebra", 1, 1, 5⟩, 1, 1, 0⟩ : Recommendation)]).take 3).length =
      min 3 (candidatesFor (fun _ => 0) [⟨0, "Algebra", 1, 1, 5⟩] 0 "Algebra").length := by
  have hcand : candidatesFor (fun _ => 0) [⟨0, "Algebra", 1, 1, 5⟩] 0 "Algebra" =
      [⟨⟨0, "Algebra", 1, 1, 5⟩, 1, 1, 0⟩] := by
    simp +decide [candidatesFor, p_success]
  have hperm : ([(⟨⟨0, "Algebra", 1, 1, 5⟩, 1, 1, 0⟩ : Recommendation)]).Perm
      (candidatesFor (fun _ => 0) [⟨0, "Algebra", 1, 1, 5⟩] 0 "Algebra") := by
    rw [hcand]
  have hadm : gapSortedPermOf
      (candidatesFor (fun _ => 0) [⟨0, "Algebra", 1, 1, 5⟩] 0 "Algebra")
      [⟨⟨0, "Algebra", 1, 1, 5⟩, 1, 1, 0⟩] := ⟨hperm, by simp⟩
  exact ⟨hadm, (per_domain_ranking_top3_any_tie_order (fun _ => 0)
    [⟨0, "Algebra", 1, 1, 5⟩] 0 "Algebra" [⟨⟨0, "Algebra", 1, 1, 5⟩, 1, 1, 0⟩] hadm).1⟩

/-- Evaluation rule for the stable sort on a two-element list. -/
lemma mergeSort_pair {α : Type} (le : α → α → Bool) (a b : α) :
    [a, b].mergeSort le = if le a b then [a, b] else [b, a] := by
  simp [List.mergeSort, List.splitInTwo, List.splitAt, List.splitAt.go, List.merge]

/-! ## C1: the ability estimate theta_d -/

/-- C1.  Every row of the recommendation output carries the ability estimate
theta_d of its domain: clip((mean micro-score - 0.5) / 0.2, -2.5, 2.5) when
history exists for the (learner, domain) pair, clip(0.7 * global ability +
0.3 * domain affinity, -2.5, 2.5) from the looked-up learner row otherwise;
in both cases theta_d lies in [-2.5, 2.5]. -/
theorem theta_estimate_formula_and_bounds (pexp : ℚ → ℚ) (student_id : ℕ)
    (df_students : List Learner) (df_items : List Item) (score_history : List TrajRec)
    (out : List Recommendation)
    (hout : recommend_items pexp student_id df_students df_items score_history = some out)
    (r : Recommendation) (hr : r ∈ out) :
    (-(5/2) ≤ r.theta_d ∧ r.theta_d ≤ 5/2) ∧
    (histFor score_history student_id r.item.domain ≠ [] →
      r.theta_d = clip ((listMean ((histFor score_history student_id r.item.domain).map
        (·.micro_score)) - 1/2) / (1/5)) (-(5/2)) (5/2)) ∧
    (histFor score_history student_id r.item.domain = [] →
      ∃ row, df_students.find? (fun s => s.student_id == student_id) = some row ∧
        r.theta_d = clip (row.ability_g * (7/10) + row.affinity r.item.domain * (3/10))
          (-(5/2)) (5/2)) := by
  obtain ⟨d, hd, theta, htheta, htop⟩ := mem_recommend hout hr
  obtain ⟨hitems, hdom, hgap, hthetaeq⟩ := mem_candidatesFor (mem_topFor htop)
  subst hdom
  rw [theta_for] at htheta
  by_cases hcase : 0 < (histFor score_history student_id r.item.domain).length
  · rw [if_pos hcase] at htheta
    have hX : clip ((listMean ((histFor score_history student_id
        r.item.domain).map (·.micro_score)) - 1/2) / (1/5)) (-(5/2)) (5/2) = theta := by
      injection htheta
    have hval := hthetaeq.trans hX.symm
    refine ⟨?_, fun _ => hval, fun hnil => ?_⟩
    · rw [hval]
      exact ⟨le_clip _ _ _ (by norm_num), clip_le_hi _ _ _⟩
    · rw [hnil] at hcase
      simp at hcase
  · rw [if_neg hcase] at htheta
    obtain ⟨row, hfind, hval⟩ := Option.map_eq_some'.mp htheta
    have hempty : histFor score_history student_id r.item.domain = [] :=
      List.length_eq_zero.mp (Nat.eq_zero_of_not_pos hcase)
    have hv : r.theta_d = clip (row.ability_g * (7/10) + row.affinity r.item.domain * (3/10))
        (-(5/2)) (5/2) := by rw [hthetaeq, ← hval]
    refine ⟨?_, fun hne => absurd hempty hne, fun _ => ⟨row, hfind, hv⟩⟩
    rw [hv]
    exact ⟨le_clip _ _ _ (by norm_num), clip_le_hi _ _ _⟩

/-- Witness for C1: a learner with history in Algebra (theta = 1 from the mean
micro-score 0.7) and one Algebra item of difficulty 1. -/
theorem theta_estimate_formula_and_bounds_witness :
    recommend_items (fun _ => 0) 0 [⟨0, 0, 0, 0, 0, fun _ => 0⟩]
      [⟨0, "Algebra", 1, 1, 5⟩] [⟨0, "Algebra", 0, 10, 7/10⟩] =
      some [⟨⟨0, "Algebra", 1, 1, 5⟩, 0, 1, 1⟩] ∧
    (-(5/2) ≤ (⟨⟨0, "Algebra", 1, 1, 5⟩, 0, 1, 1⟩ : Recommendation).theta_d ∧
      (⟨⟨0, "Algebra", 1, 1, 5⟩, 0, 1, 1⟩ : Recommendation).theta_d ≤ 5/2) := by
  have heval : recommend_items (fun _ => 0) 0 [⟨0, 0, 0, 0, 0, fun _ => 0⟩]
      [⟨0, "Algebra", 1, 1, 5⟩] [⟨0, "Algebra", 0, 10, 7/10⟩] =
      some [⟨⟨0, "Algebra", 1, 1, 5⟩, 0, 1, 1⟩] := by
    simp +decide [recommend_items, recLoop, theta_for, histFor, candidatesFor, topFor,
      DOMAINS, clip, listMean, p_success, List.find?]
    norm_num
  exact ⟨heval, (theta_estimate_formula_and_bounds (fun _ => 0) 0
    [⟨0, 0, 0, 0, 0, fun _ => 0⟩] [⟨0, "Algebra", 1, 1, 5⟩] [⟨0, "Algebra", 0, 10, 7/10⟩]
    _ heval ⟨⟨0, "Algebra", 1, 1, 5⟩, 0, 1, 1⟩ (by simp)).1⟩

/-! ## C3: order of the flat recommendation output -/

/-- C3 as stated is false: the final sort orders domains alphabetically, not in
the enumeration order of DOMAINS.  With one Probability item and one Calculus
item the output lists Calculus (enumeration index 2) before Probability
(enumeration index 1). -/
theorem flat_output_enumeration_order_refuted :
    recommend_items (fun _ => 0) 0 [⟨0, 0, 0, 0, 0, fun _ => 0⟩]
      [⟨0, "Probability", 1, 0, 1⟩, ⟨1, "Calculus", 1, 0, 1⟩] [] =
      some [⟨⟨1, "Calculus", 1, 0, 1⟩, 0, 1, 0⟩, ⟨⟨0, "Probability", 1, 0, 1⟩, 0, 1, 0⟩] ∧
    ¬ ([⟨⟨1, "Calculus", 1, 0, 1⟩, 0, 1, 0⟩, ⟨⟨0, "Probability", 1, 0, 1⟩, 0, 1, 0⟩] :
        List Recommendation).Pairwise (fun r s =>
          DOMAINS.indexOf r.item.domain < DOMAINS.indexOf s.item.domain ∨
          (r.item.domain = s.item.domain ∧ r.gap ≤ s.gap)) := by
  constructor
  · simp +decide [recommend_items, recLoop, theta_for, histFor, candidatesFor, topFor,
      DOMAINS, clip, listMean, p_success, List.find?, mergeSort_pair, domLE]
    norm_num
  · intro h
    have := (List.pairwise_cons.mp h).1
      (⟨⟨0, "Probability", 1, 0, 1⟩, 0, 1, 0⟩ : Recommendation) (by simp)
    rcases this with h' | ⟨h', _⟩
    · revert h'
      decide
    · revert h'
      decide

/-- C3 amended.  The flat output of recommend_items is sorted first by domain
name in ascending alphabetical (string) order, then by gap ascending. -/
theorem flat_output_sorted_by_domain_name_then_gap (pexp : ℚ → ℚ) (student_id : ℕ)
    (df_students : List Learner) (df_items : List Item) (score_history : List TrajRec)
    (out : List Recommendation)
    (hout : recommend_items pexp student_id df_students df_items score_history = some out) :
    out.Pairwise (fun r s =>
      r.item.domain < s.item.domain ∨ (r.item.domain = s.item.domain ∧ r.gap ≤ s.gap)) := by
  rw [recommend_items] at hout
  obtain ⟨recs, hrec, rfl⟩ := Option.map_eq_some'.mp hout
  exact (List.sorted_mergeSort domLE_trans domLE_total recs).imp
    (fun hb => (domLE_iff _ _).mp hb)

/-- Witness for the amended C3 at a concrete input. -/
theorem flat_output_sorted_by_domain_name_then_gap_witness :
    recommend_items (fun _ => 0) 0 [⟨0, 0, 0, 0, 0, fun _ => 0⟩]
      [⟨0, "Calculus", 1, 0, 1⟩] [] = some [⟨⟨0, "Calculus", 1, 0, 1⟩, 0, 1, 0⟩] ∧
    ([⟨⟨0, "Calculus", 1, 0, 1⟩, 0, 1, 0⟩] : List Recommendation).Pairwise (fun r s =>
      r.item.domain < s.item.domain ∨ (r.item.domain = s.item.domain ∧ r.gap ≤ s.gap)) := by
  have heval : recommend_items (fun _ => 0) 0 [⟨0, 0, 0, 0, 0, fun _ => 0⟩]
      [⟨0, "Calculus", 1, 0, 1⟩] [] = some [⟨⟨0, "Calculus", 1, 0, 1⟩, 0, 1, 0⟩] := by
    simp +decide [recommend_items, recLoop, theta_for, histFor, candidatesFor, topFor,
      DOMAINS, clip, listMean, p_success, List.find?]
    norm_num
  exact ⟨heval, flat_output_sorted_by_domain_name_then_gap (fun _ => 0) 0
    [⟨0, 0, 0, 0, 0, fun _ => 0⟩] [⟨0, "Calculus", 1, 0, 1⟩] [] _ heval⟩

/-! ## C7: absent learner and empty domain -/

/-- C7 as stated is false: with the learner id absent from the Learner
collection (and no history), recommend_items raises an IndexError at the
.iloc[0] lookup — embedded as none — instead of returning an empty or
placeholder result. -/
theorem notfound_placeholder_refuted :
    ([] : List Learner).find? (fun s => s.student_id == 99) = none ∧
    recommend_items (fun _ => 0) 99 [] [] [] = none := by
  constructor
  · rfl
  · rfl

/-- C7 amended.  A learner id absent from the Learner collection makes the
whole call fail (an uncaught IndexError, embedded as none) as soon as some
domain has no history rows for that learner; a domain with zero items in the
bank, on the other hand, contributes zero recommendations without failing a
call that otherwise succeeds. -/
theorem absent_learner_fails_and_empty_domain_is_harmless (pexp : ℚ → ℚ) (student_id : ℕ)
    (df_students : List Learner) (df_items : List Item) (score_history : List TrajRec) :
    (df_students.find? (fun s => s.student_id == student_id) = none →
      (∃ d ∈ DOMAINS, histFor score_history student_id d = []) →
      recommend_items pexp student_id df_students df_items score_history = none) ∧
    (∀ (out : List Recommendation) (d : String),
      recommend_items pexp student_id df_students df_items score_history = some out →
      df_items.filter (fun it => it.domain == d) = [] →
      out.filter (fun r => r.item.domain == d) = []) := by
  constructor
  · rintro hfind ⟨d, hd, hhist⟩
    have hnone : theta_for score_history df_students student_id d = none := by
      rw [theta_for]
      rw [if_neg (by simp [hhist]), hfind]
      rfl
    rw [recommend_items, recLoop_eq_none pexp student_id df_students df_items
      score_history DOMAINS d hd hnone]
    rfl
  · intro out d hout hempty
    rw [List.filter_eq_nil]
    intro r hr hdom
    obtain ⟨d', hd', theta, htheta, htop⟩ := mem_recommend hout hr
    have hc := mem_candidatesFor (mem_topFor htop)
    have hmemfilter : r.item ∈ df_items.filter (fun it => it.domain == d) := by
      rw [List.mem_filter]
      refine ⟨hc.1, ?_⟩
      simpa using hdom
    rw [hempty] at hmemfilter
    simp at hmemfilter

/-- Witness for the amended C7: an absent learner id aborts the call, and with
a present learner a domain with zero items yields zero recommendations. -/
theorem absent_learner_fails_witness :
    recommend_items (fun _ => 0) 7 [] [⟨0, "Algebra", 1, 0, 1⟩] [] = none ∧
    ([⟨⟨0, "Calculus", 1, 0, 1⟩, 0, 1, 0⟩] : List Recommendation).filter
      (fun r => r.item.domain == "Algebra") = [] := by
  constructor
  · exact (absent_learner_fails_and_empty_domain_is_harmless (fun _ => 0) 7 [] 
      [⟨0, "Algebra", 1, 0, 1⟩] []).1 rfl ⟨"Algebra", by simp [DOMAINS], rfl⟩
  · have heval : recommend_items (fun _ => 0) 0 [⟨0, 0, 0, 0, 0, fun _ => 0⟩]
        [⟨0, "Calculus", 1, 0, 1⟩] [] = some [⟨⟨0, "Calculus", 1, 0, 1⟩, 0, 1, 0⟩] := by
      simp +decide [recommend_items, recLoop, theta_for, histFor, candidatesFor, topFor,
        DOMAINS, clip, listMean, p_success, List.find?]
      norm_num
    exact (absent_learner_fails_and_empty_domain_is_harmless (fun _ => 0) 0
      [⟨0, 0, 0, 0, 0, fun _ => 0⟩] [⟨0, "Calculus", 1, 0, 1⟩] []).2
      [⟨⟨0, "Calculus", 1, 0, 1⟩, 0, 1, 0⟩] "Algebra" heval (by simp)

/-! ## Lemmas about the weekly planning agent -/

lemma dayWeightsNorm_eq (e : ℚ) (he : 0 ≤ e) :
    dayWeightsNorm e = [11/70, 11/70, 11/70, 1/7, 1/7, 4/35, 9/70] := by
  have hc : (0:ℚ) < 4/5 + 2/5 * e := by linarith
  simp only [dayWeightsNorm, dayShape, List.map_cons, List.map_nil, List.sum_cons,
    List.sum_nil, List.cons.injEq, and_true]
  norm_num
  refine ⟨?_, ?_, ?_, ?_⟩ <;> (rw [div_eq_iff (by linarith)]; ring)

lemma planCells_cons (p : String × ℚ) (t : List (String × ℚ)) (e g : ℚ) :
    planCells (p :: t) e g = ((DAYS.zip (dayWeightsNorm e)).map fun q =>
      (⟨p.1, q.1, p.2 * g * q.2⟩ : PlanCell)) ++ planCells t e g := by
  simp [planCells]

lemma block_hours_sum (p : String × ℚ) (g e : ℚ) (he : 0 ≤ e) :
    (((DAYS.zip (dayWeightsNorm e)).map fun q => (⟨p.1, q.1, p.2 * g * q.2⟩ : PlanCell)).map
      (·.hours)).sum = p.2 * g := by
  rw [dayWeightsNorm_eq e he]
  simp [DAYS]
  ring

lemma planCells_sum (w : List (String × ℚ)) (e g : ℚ) (he : 0 ≤ e) :
    ((planCells w e g).map (·.hours)).sum = (w.map Prod.snd).sum * g := by
  induction w with
  | nil => simp [planCells]
  | cons p t ih =>
    rw [planCells_cons, List.map_append, List.sum_append, ih, block_hours_sum p g e he]
    simp
    ring

lemma normalizeWeights_sum (ws : List (String × ℚ)) (h : (ws.map Prod.snd).sum ≠ 0) :
    ((normalizeWeights ws).map Prod.snd).sum = 1 := by
  simp only [normalizeWeights, List.map_map]
  have hfun : (Prod.snd ∘ fun p : String × ℚ => (p.1, p.2 / (ws.map Prod.snd).sum)) =
      fun p : String × ℚ => p.2 * ((ws.map Prod.snd).sum)⁻¹ := by
    funext p
    simp [div_eq_mul_inv]
  rw [hfun, List.sum_map_mul_right, mul_inv_cancel₀ h]

lemma normalizeWeights_fst (ws : List (String × ℚ)) :
    (normalizeWeights ws).map Prod.fst = ws.map Prod.fst := by
  simp [normalizeWeights, List.map_map, Function.comp]

lemma mem_normalizeWeights {ws : List (String × ℚ)} {p : String × ℚ} (hp : p ∈ ws) :
    (p.1, p.2 / (ws.map Prod.snd).sum) ∈ normalizeWeights ws := by
  simp only [normalizeWeights]
  exact List.mem_map.mpr ⟨p, hp, rfl⟩

lemma mem_groupMeanWeights {ws : List (String × ℚ)} {p : String × ℚ}
    (h : p ∈ groupMeanWeights ws) :
    p.1 ∈ ws.map Prod.fst ∧
      p.2 = listMean ((ws.filter fun q => q.1 == p.1).map Prod.snd) := by
  simp only [groupMeanWeights, List.mem_map] at h
  obtain ⟨d, hd, rfl⟩ := h
  exact ⟨List.mem_dedup.mp (List.mem_mergeSort.mp hd), rfl⟩

lemma groupMeanWeights_complete {ws : List (String × ℚ)} {d : String}
    (hd : d ∈ ws.map Prod.fst) :
    (d, listMean ((ws.filter fun q => q.1 == d).map Prod.snd)) ∈ groupMeanWeights ws := by
  simp only [groupMeanWeights, List.mem_map]
  exact ⟨d, List.mem_mergeSort.mpr (List.mem_dedup.mpr hd), rfl⟩

lemma groupMeanWeights_fst_nodup (ws : List (String × ℚ)) :
    ((groupMeanWeights ws).map Prod.fst).Nodup := by
  have heq : (groupMeanWeights ws).map Prod.fst = (ws.map Prod.fst).dedup.mergeSort strLE := by
    simp only [groupMeanWeights, List.map_map]
    have hcomp : (Prod.fst ∘ fun d : String =>
        (d, listMean ((ws.filter fun p => p.1 == d).map Prod.snd))) = id := by
      funext d
      rfl
    rw [hcomp, List.map_id]
  rw [heq]
  exact (List.mergeSort_perm _ strLE).symm.nodup (List.nodup_dedup _)

lemma listMean_pos {l : List ℚ} (hl : ∀ x ∈ l, 0 < x) (hne : l ≠ []) : 0 < listMean l := by
  rw [listMean]
  apply div_pos (List.sum_pos l hl hne)
  have : 0 < l.length := List.length_pos.mpr hne
  exact_mod_cast this

lemma listMean_nonneg {l : List ℚ} (hl : ∀ x ∈ l, 0 ≤ x) : 0 ≤ listMean l := by
  rw [listMean]
  apply div_nonneg (List.sum_nonneg hl)
  positivity

lemma groupMeanWeights_pos {ws : List (String × ℚ)} (hpos : ∀ q ∈ ws, 0 < q.2) :
    ∀ p ∈ groupMeanWeights ws, 0 < p.2 := by
  intro p hp
  obtain ⟨hd, hval⟩ := mem_groupMeanWeights hp
  obtain ⟨q, hq, hq1⟩ := List.mem_map.mp hd
  have hqf : q ∈ ws.filter fun x => x.1 == p.1 :=
    List.mem_filter.mpr ⟨hq, by simp [hq1]⟩
  rw [hval]
  apply listMean_pos
  · intro x hx
    obtain ⟨y, hy, rfl⟩ := List.mem_map.mp hx
    exact hpos y (List.mem_filter.mp hy).1
  · intro hnil
    rw [List.map_eq_nil_iff] at hnil
    rw [hnil] at hqf
    simp at hqf

lemma groupMeanWeights_nonneg {ws : List (String × ℚ)} (hpos : ∀ q ∈ ws, 0 ≤ q.2) :
    ∀ p ∈ groupMeanWeights ws, 0 ≤ p.2 := by
  intro p hp
  obtain ⟨_, hval⟩ := mem_groupMeanWeights hp
  rw [hval]
  apply listMean_nonneg
  intro x hx
  obtain ⟨y, hy, rfl⟩ := List.mem_map.mp hx
  exact hpos y (List.mem_filter.mp hy).1

lemma groupMeanWeights_ne_nil {ws : List (String × ℚ)} (h : ws ≠ []) :
    groupMeanWeights ws ≠ [] := by
  obtain ⟨q, hq⟩ := List.exists_mem_of_ne_nil ws h
  exact List.ne_nil_of_mem (groupMeanWeights_complete (List.mem_map.mpr ⟨q, hq, rfl⟩))

lemma weightsRaw_ne_nil (df7s : List AggRow) (priority : String) :
    weightsRaw df7s priority ≠ [] := by
  rw [weightsRaw]
  split_ifs with h1 h2 h3
  · simp [DOMAINS]
  all_goals
    intro hnil
    rw [List.map_eq_nil_iff] at hnil
    rw [hnil] at h1
    simp at h1

lemma weightsRaw_pos (df7s : List AggRow) (priority : String)
    (hmicro : ∀ r ∈ df7s, 1/20 ≤ r.micro_mean ∧ r.micro_mean ≤ 49/50) :
    ∀ p ∈ weightsRaw df7s priority, 0 < p.2 := by
  intro p hp
  rw [weightsRaw] at hp
  split_ifs at hp with h1 h2 h3
  · obtain ⟨d, hd, rfl⟩ := List.mem_map.mp hp
    norm_num [DOMAINS]
  · obtain ⟨r, hr, rfl⟩ := List.mem_map.mp hp
    have := hmicro r hr
    show 0 < 1 - r.micro_mean
    linarith [this.2]
  · obtain ⟨r, hr, rfl⟩ := List.mem_map.mp hp
    have := hmicro r hr
    show 0 < r.micro_mean
    linarith [this.1]
  · obtain ⟨r, hr, rfl⟩ := List.mem_map.mp hp
    norm_num

/-! ## C5: the weekly plan sums to the goal -/

/-- C5.  For every learner present in the Learner table (with the nonnegative
engagement of the data model), every priority string and every positive weekly
goal, the hours of the produced plan sum to the goal within 1e-6 relative
tolerance (in the exact rational embedding the sum is the goal itself),
provided the learner's aggregate micro-means respect the trajectory invariant
[0.05, 0.98]. -/
theorem plan_total_equals_goal (df7 : List AggRow) (df_students : List Learner)
    (student_id : ℕ) (priority : String) (goal_h : ℚ) (cells : List PlanCell)
    (hmicro : ∀ r ∈ df7, r.student_id = student_id →
      1/20 ≤ r.micro_mean ∧ r.micro_mean ≤ 49/50)
    (heng : ∀ row ∈ df_students, 0 ≤ row.engagement)
    (hgoal : 0 < goal_h)
    (hplan : build_agent_plan df7 df_students student_id priority goal_h = some cells) :
    |((cells.map (·.hours)).sum) - goal_h| ≤ goal_h * (1/1000000) := by
  simp only [build_agent_plan] at hplan
  obtain ⟨row, hfind, hcells⟩ := Option.map_eq_some'.mp hplan
  have hrow : 0 ≤ row.engagement := heng row (List.mem_of_find?_eq_some hfind)
  have hmicro' : ∀ r ∈ df7.filter (fun r => r.student_id == student_id),
      1/20 ≤ r.micro_mean ∧ r.micro_mean ≤ 49/50 := by
    intro r hr
    rw [List.mem_filter] at hr
    exact hmicro r hr.1 (by simpa using hr.2)
  have hWpos := weightsRaw_pos (df7.filter (fun r => r.student_id == student_id))
    priority hmicro'
  have hGpos := groupMeanWeights_pos hWpos
  have hGnil := groupMeanWeights_ne_nil
    (weightsRaw_ne_nil (df7.filter (fun r => r.student_id == student_id)) priority)
  have hSpos : 0 < ((groupMeanWeights (weightsRaw
      (df7.filter (fun r => r.student_id == student_id)) priority)).map Prod.snd).sum := by
    apply List.sum_pos
    · intro x hx
      obtain ⟨p, hp, rfl⟩ := List.mem_map.mp hx
      exact hGpos p hp
    · intro hnil
      exact hGnil (List.map_eq_nil_iff.mp hnil)
  have hsum1 := normalizeWeights_sum _ (ne_of_gt hSpos)
  have htot : ((cells.map (·.hours)).sum) = goal_h := by
    rw [← hcells, planCells_sum _ _ _ hrow, hsum1, one_mul]
  rw [htot, sub_self, abs_zero]
  positivity

/-- Witness for C5: a learner with one recent Algebra aggregate, the balanced
policy and goal 7; the plan is the seven Algebra day cells and sums to 7. -/
theorem plan_total_equals_goal_witness :
    build_agent_plan [⟨0, "Algebra", 10, 1/2⟩] [⟨0, 0, 0, 0, 0, fun _ => 0⟩] 0 "balanced" 7 =
      some [⟨"Algebra", "Mon", 11/10⟩, ⟨"Algebra", "Tue", 11/10⟩, ⟨"Algebra", "Wed", 11/10⟩,
        ⟨"Algebra", "Thu", 1⟩, ⟨"Algebra", "Fri", 1⟩, ⟨"Algebra", "Sat", 4/5⟩,
        ⟨"Algebra", "Sun", 9/10⟩] ∧
    |(([⟨"Algebra", "Mon", 11/10⟩, ⟨"Algebra", "Tue", 11/10⟩, ⟨"Algebra", "Wed", 11/10⟩,
        ⟨"Algebra", "Thu", 1⟩, ⟨"Algebra", "Fri", 1⟩, ⟨"Algebra", "Sat", 4/5⟩,
        ⟨"Algebra", "Sun", 9/10⟩] : List PlanCell).map (·.hours)).sum - 7| ≤ 7 * (1/1000000) := by
  have heval : build_agent_plan [⟨0, "Algebra", 10, 1/2⟩] [⟨0, 0, 0, 0, 0, fun _ => 0⟩]
      0 "balanced" 7 =
      some [⟨"Algebra", "Mon", 11/10⟩, ⟨"Algebra", "Tue", 11/10⟩, ⟨"Algebra", "Wed", 11/10⟩,
        ⟨"Algebra", "Thu", 1⟩, ⟨"Algebra", "Fri", 1⟩, ⟨"Algebra", "Sat", 4/5⟩,
        ⟨"Algebra", "Sun", 9/10⟩] := by
    simp +decide [build_agent_plan, weightsRaw, groupMeanWeights, normalizeWeights,
      dayWeightsNorm, dayShape, DAYS, planCells, listMean, List.find?, strLE,
      List.dedup_cons_of_not_mem, DOMAINS]
    norm_num
  refine ⟨heval, ?_⟩
  exact plan_total_equals_goal [⟨0, "Algebra", 10, 1/2⟩] [⟨0, 0, 0, 0, 0, fun _ => 0⟩]
    0 "balanced" 7 _
    (by
      intro r hr hs
      rw [List.mem_singleton] at hr
      subst hr
      norm_num)
    (by
      intro rw0 hrw
      rw [List.mem_singleton] at hrw
      subst hrw
      norm_num)
    (by norm_num) heval

/-! ## C6: the weak policy favors the low-scoring domain -/

lemma filter_key_single {α β : Type} [DecidableEq β] (f : α → β) :
    ∀ (l : List α), (l.map f).Nodup → ∀ a ∈ l, l.filter (fun x => f x == f a) = [a] := by
  intro l
  induction l with
  | nil =>
    intro _ a ha
    simp at ha
  | cons b t ih =>
    intro hn a ha
    rw [List.map_cons, List.nodup_cons] at hn
    rcases List.mem_cons.mp ha with rfl | hat
    · rw [List.filter_cons_of_pos (by simp)]
      have ht : t.filter (fun x => f x == f a) = [] := by
        rw [List.filter_eq_nil_iff]
        intro x hx hfx
        refine hn.1 ?_
        rw [beq_iff_eq] at hfx
        exact List.mem_map.mpr ⟨x, hx, hfx⟩
      rw [ht]
    · have hfb : f a ≠ f b := by
        intro he
        exact hn.1 (List.mem_map.mpr ⟨a, hat, he⟩)
      rw [List.filter_cons_of_neg (by simp [Ne.symm hfb])]
      exact ih hn.2 a hat

lemma planCells_filter_not_mem (w : List (String × ℚ)) (e g : ℚ) (d : String)
    (hd : d ∉ w.map Prod.fst) :
    (planCells w e g).filter (fun c => c.domain == d) = [] := by
  induction w with
  | nil => rfl
  | cons p t ih =>
    rw [List.map_cons] at hd
    rw [planCells_cons, List.filter_append, List.filter_map]
    have hne : p.1 ≠ d := fun he => hd (he ▸ List.mem_cons_self _ _)
    have hcomp : ((fun c : PlanCell => c.domain == d) ∘ (fun q : String × ℚ =>
        (⟨p.1, q.1, p.2 * g * q.2⟩ : PlanCell))) = fun _ => false := by
      funext q
      simp [hne]
    rw [hcomp]
    simp only [List.filter_false, List.map_nil, List.nil_append]
    exact ih (fun hmem => hd (List.mem_cons_of_mem _ hmem))

lemma planCells_filter_sum (w : List (String × ℚ)) (e g : ℚ) (d : String) (v : ℚ)
    (hnd : (w.map Prod.fst).Nodup) (hmem : (d, v) ∈ w) (he : 0 ≤ e) :
    (((planCells w e g).filter (fun c => c.domain == d)).map (·.hours)).sum = v * g := by
  induction w with
  | nil => simp at hmem
  | cons p t ih =>
    rw [List.map_cons, List.nodup_cons] at hnd
    rw [planCells_cons, List.filter_append, List.map_append, List.sum_append, List.filter_map]
    rcases List.mem_cons.mp hmem with rfl | hmt
    · have hcomp : ((fun c : PlanCell => c.domain == d) ∘ (fun q : String × ℚ =>
          (⟨(d, v).1, q.1, (d, v).2 * g * q.2⟩ : PlanCell))) = fun _ => true := by
        funext q
        simp
      rw [hcomp, List.filter_true]
      rw [planCells_filter_not_mem t e g d hnd.1]
      have := block_hours_sum (d, v) g e he
      rw [this]
      simp
    · have hdmem : d ∈ t.map Prod.fst := List.mem_map.mpr ⟨(d, v), hmt, rfl⟩
      have hne : p.1 ≠ d := fun he' => hnd.1 (he' ▸ hdmem)
      have hcomp : ((fun c : PlanCell => c.domain == d) ∘ (fun q : String × ℚ =>
          (⟨p.1, q.1, p.2 * g * q.2⟩ : PlanCell))) = fun _ => false := by
        funext q
        simp [hne]
      rw [hcomp]
      simp only [List.filter_false, List.map_nil, List.sum_nil, zero_add]
      exact ih hnd.2 hmt

/-- C6.  Under the weak policy, a learner whose recent aggregates contain a
domain d1 with mean micro-score 0.1 and a domain d2 with mean micro-score 0.9
is allocated strictly more total hours in d1 than in d2 (weights proportional
to 1 - mean micro-score). -/
theorem weak_policy_prioritizes_low_score_domain (df7 : List AggRow)
    (df_students : List Learner) (student_id : ℕ) (goal_h : ℚ) (cells : List PlanCell)
    (d1 d2 : String) (r1 r2 : AggRow)
    (hnd : ((df7.filter fun r => r.student_id == student_id).map fun r => r.domain).Nodup)
    (hr1 : r1 ∈ df7) (hr1s : r1.student_id = student_id) (hr1d : r1.domain = d1)
    (hr1m : r1.micro_mean = 1/10)
    (hr2 : r2 ∈ df7) (hr2s : r2.student_id = student_id) (hr2d : r2.domain = d2)
    (hr2m : r2.micro_mean = 9/10)
    (hbounds : ∀ r ∈ df7, r.student_id = student_id → 0 ≤ r.micro_mean ∧ r.micro_mean ≤ 1)
    (heng : ∀ row ∈ df_students, 0 ≤ row.engagement)
    (hgoal : 0 < goal_h)
    (hplan : build_agent_plan df7 df_students student_id "weak" goal_h = some cells) :
    ((cells.filter fun c => c.domain == d2).map (·.hours)).sum <
    ((cells.filter fun c => c.domain == d1).map (·.hours)).sum := by
  simp only [build_agent_plan] at hplan
  obtain ⟨row, hfind, hcells⟩ := Option.map_eq_some'.mp hplan
  have hrow : 0 ≤ row.engagement := heng row (List.mem_of_find?_eq_some hfind)
  have hr1f : r1 ∈ df7.filter (fun r => r.student_id == student_id) :=
    List.mem_filter.mpr ⟨hr1, by simp [hr1s]⟩
  have hr2f : r2 ∈ df7.filter (fun r => r.student_id == student_id) :=
    List.mem_filter.mpr ⟨hr2, by simp [hr2s]⟩
  have hlen : ¬ (df7.filter (fun r => r.student_id == student_id)).length = 0 := by
    intro h
    rw [List.length_eq_zero] at h
    rw [h] at hr1f
    simp at hr1f
  have hW : weightsRaw (df7.filter (fun r => r.student_id == student_id)) "weak" =
      (df7.filter (fun r => r.student_id == student_id)).map
        (fun r => (r.domain, 1 - r.micro_mean)) := by
    rw [weightsRaw, if_neg hlen, if_pos (by simp)]
  have hWfst : (weightsRaw (df7.filter (fun r => r.student_id == student_id)) "weak").map
      Prod.fst = (df7.filter (fun r => r.student_id == student_id)).map (fun r => r.domain) := by
    rw [hW, List.map_map]
    rfl
  have hfilter1 := filter_key_single (fun r : AggRow => r.domain)
    (df7.filter (fun r => r.student_id == student_id)) hnd r1 hr1f
  have hfilter2 := filter_key_single (fun r : AggRow => r.domain)
    (df7.filter (fun r => r.student_id == student_id)) hnd r2 hr2f
  simp only [] at hfilter1 hfilter2
  rw [hr1d] at hfilter1
  rw [hr2d] at hfilter2
  have hcomp1 : ((fun q : String × ℚ => q.1 == d1) ∘
      (fun r : AggRow => (r.domain, 1 - r.micro_mean))) = fun r : AggRow => r.domain == d1 := rfl
  have hcomp2 : ((fun q : String × ℚ => q.1 == d2) ∘
      (fun r : AggRow => (r.domain, 1 - r.micro_mean))) = fun r : AggRow => r.domain == d2 := rfl
  have hv1 : listMean (((weightsRaw (df7.filter (fun r => r.student_id == student_id))
      "weak").filter (fun q => q.1 == d1)).map Prod.snd) = 9/10 := by
    rw [hW, List.filter_map, hcomp1, hfilter1]
    simp [listMean, hr1m]
    norm_num
  have hv2 : listMean (((weightsRaw (df7.filter (fun r => r.student_id == student_id))
      "weak").filter (fun q => q.1 == d2)).map Prod.snd) = 1/10 := by
    rw [hW, List.filter_map, hcomp2, hfilter2]
    simp [listMean, hr2m]
    norm_num
  have hd1 : d1 ∈ (weightsRaw (df7.filter (fun r => r.student_id == student_id))
      "weak").map Prod.fst := by
    rw [hWfst]
    exact List.mem_map.mpr ⟨r1, hr1f, hr1d⟩
  have hd2 : d2 ∈ (weightsRaw (df7.filter (fun r => r.student_id == student_id))
      "weak").map Prod.fst := by
    rw [hWfst]
    exact List.mem_map.mpr ⟨r2, hr2f, hr2d⟩
  have hG1 : (d1, (9:ℚ)/10) ∈ groupMeanWeights (weightsRaw
      (df7.filter (fun r => r.student_id == student_id)) "weak") := by
    rw [← hv1]
    exact groupMeanWeights_complete hd1
  have hG2 : (d2, (1:ℚ)/10) ∈ groupMeanWeights (weightsRaw
      (df7.filter (fun r => r.student_id == student_id)) "weak") := by
    rw [← hv2]
    exact groupMeanWeights_complete hd2
  have hWnn : ∀ q ∈ weightsRaw (df7.filter (fun r => r.student_id == student_id)) "weak",
      0 ≤ q.2 := by
    intro q hq
    rw [hW] at hq
    obtain ⟨r, hr, rfl⟩ := List.mem_map.mp hq
    have hrr := List.mem_filter.mp hr
    have := hbounds r hrr.1 (by simpa using hrr.2)
    show (0:ℚ) ≤ 1 - r.micro_mean
    linarith [this.2]
  have hGnn := groupMeanWeights_nonneg hWnn
  have hSnn : ∀ x ∈ (groupMeanWeights (weightsRaw
      (df7.filter (fun r => r.student_id == student_id)) "weak")).map Prod.snd, 0 ≤ x := by
    intro x hx
    obtain ⟨p, hp, rfl⟩ := List.mem_map.mp hx
    exact hGnn p hp
  have hS9 : (9:ℚ)/10 ≤ ((groupMeanWeights (weightsRaw
      (df7.filter (fun r => r.student_id == student_id)) "weak")).map Prod.snd).sum :=
    List.single_le_sum hSnn _ (List.mem_map.mpr ⟨(d1, (9:ℚ)/10), hG1, rfl⟩)
  have hSpos : 0 < ((groupMeanWeights (weightsRaw
      (df7.filter (fun r => r.student_id == student_id)) "weak")).map Prod.snd).sum := by
    linarith
  have hw1 : (d1, (9:ℚ)/10 / ((groupMeanWeights (weightsRaw
      (df7.filter (fun r => r.student_id == student_id)) "weak")).map Prod.snd).sum) ∈
      normalizeWeights (groupMeanWeights (weightsRaw
        (df7.filter (fun r => r.student_id == student_id)) "weak")) :=
    mem_normalizeWeights hG1
  have hw2 : (d2, (1:ℚ)/10 / ((groupMeanWeights (weightsRaw
      (df7.filter (fun r => r.student_id == student_id)) "weak")).map Prod.snd).sum) ∈
      normalizeWeights (groupMeanWeights (weightsRaw
        (df7.filter (fun r => r.student_id == student_id)) "weak")) :=
    mem_normalizeWeights hG2
  have hwnd : ((normalizeWeights (groupMeanWeights (weightsRaw
      (df7.filter (fun r => r.student_id == student_id)) "weak"))).map Prod.fst).Nodup := by
    rw [normalizeWeights_fst]
    exact groupMeanWeights_fst_nodup _
  have ht1 : ((cells.filter fun c => c.domain == d1).map (·.hours)).sum =
      (9:ℚ)/10 / ((groupMeanWeights (weightsRaw
        (df7.filter (fun r => r.student_id == student_id)) "weak")).map Prod.snd).sum *
        goal_h := by
    rw [← hcells]
    exact planCells_filter_sum _ _ _ _ _ hwnd hw1 hrow
  have ht2 : ((cells.filter fun c => c.domain == d2).map (·.hours)).sum =
      (1:ℚ)/10 / ((groupMeanWeights (weightsRaw
        (df7.filter (fun r => r.student_id == student_id)) "weak")).map Prod.snd).sum *
        goal_h := by
    rw [← hcells]
    exact planCells_filter_sum _ _ _ _ _ hwnd hw2 hrow
  rw [ht1, ht2]
  apply mul_lt_mul_of_pos_right _ hgoal
  rw [div_eq_mul_inv, div_eq_mul_inv]
  exact mul_lt_mul_of_pos_right (by norm_num) (inv_pos.mpr hSpos)

/-- Witness for C6: Algebra at micro-mean 0.9 and Calculus at 0.1 under the
weak policy with goal 70; Calculus (9/10 of the weight) gets 63 hours,
Algebra 7. -/
theorem weak_policy_prioritizes_low_score_domain_witness :
    build_agent_plan [⟨0, "Algebra", 10, 9/10⟩, ⟨0, "Calculus", 10, 1/10⟩]
      [⟨0, 0, 0, 0, 0, fun _ => 0⟩] 0 "weak" 70 =
      some [⟨"Algebra", "Mon", 11/10⟩, ⟨"Algebra", "Tue", 11/10⟩, ⟨"Algebra", "Wed", 11/10⟩,
        ⟨"Algebra", "Thu", 1⟩, ⟨"Algebra", "Fri", 1⟩, ⟨"Algebra", "Sat", 4/5⟩,
        ⟨"Algebra", "Sun", 9/10⟩,
        ⟨"Calculus", "Mon", 99/10⟩, ⟨"Calculus", "Tue", 99/10⟩, ⟨"Calculus", "Wed", 99/10⟩,
        ⟨"Calculus", "Thu", 9⟩, ⟨"Calculus", "Fri", 9⟩, ⟨"Calculus", "Sat", 36/5⟩,
        ⟨"Calculus", "Sun", 81/10⟩] ∧
    ((([⟨"Algebra", "Mon", 11/10⟩, ⟨"Algebra", "Tue", 11/10⟩, ⟨"Algebra", "Wed", 11/10⟩,
        ⟨"Algebra", "Thu", 1⟩, ⟨"Algebra", "Fri", 1⟩, ⟨"Algebra", "Sat", 4/5⟩,
        ⟨"Algebra", "Sun", 9/10⟩,
        ⟨"Calculus", "Mon", 99/10⟩, ⟨"Calculus", "Tue", 99/10⟩, ⟨"Calculus", "Wed", 99/10⟩,
        ⟨"Calculus", "Thu", 9⟩, ⟨"Calculus", "Fri", 9⟩, ⟨"Calculus", "Sat", 36/5⟩,
        ⟨"Calculus", "Sun", 81/10⟩] : List PlanCell).filter
          fun c => c.domain == "Algebra").map (·.hours)).sum <
    ((([⟨"Algebra", "Mon", 11/10⟩, ⟨"Algebra", "Tue", 11/10⟩, ⟨"Algebra", "Wed", 11/10⟩,
        ⟨"Algebra", "Thu", 1⟩, ⟨"Algebra", "Fri", 1⟩, ⟨"Algebra", "Sat", 4/5⟩,
        ⟨"Algebra", "Sun", 9/10⟩,
        ⟨"Calculus", "Mon", 99/10⟩, ⟨"Calculus", "Tue", 99/10⟩, ⟨"Calculus", "Wed", 99/10⟩,
        ⟨"Calculus", "Thu", 9⟩, ⟨"Calculus", "Fri", 9⟩, ⟨"Calculus", "Sat", 36/5⟩,
        ⟨"Calculus", "Sun", 81/10⟩] : List PlanCell).filter
          fun c => c.domain == "Calculus").map (·.hours)).sum := by
  have heval : build_agent_plan [⟨0, "Algebra", 10, 9/10⟩, ⟨0, "Calculus", 10, 1/10⟩]
      [⟨0, 0, 0, 0, 0, fun _ => 0⟩] 0 "weak" 70 =
      some [⟨"Algebra", "Mon", 11/10⟩, ⟨"Algebra", "Tue", 11/10⟩, ⟨"Algebra", "Wed", 11/10⟩,
        ⟨"Algebra", "Thu", 1⟩, ⟨"Algebra", "Fri", 1⟩, ⟨"Algebra", "Sat", 4/5⟩,
        ⟨"Algebra", "Sun", 9/10⟩,
        ⟨"Calculus", "Mon", 99/10⟩, ⟨"Calculus", "Tue", 99/10⟩, ⟨"Calculus", "Wed", 99/10⟩,
        ⟨"Calculus", "Thu", 9⟩, ⟨"Calculus", "Fri", 9⟩, ⟨"Calculus", "Sat", 36/5⟩,
        ⟨"Calculus", "Sun", 81/10⟩] := by
    simp +decide [build_agent_plan, weightsRaw, groupMeanWeights, normalizeWeights,
      dayWeightsNorm, dayShape, DAYS, planCells, listMean, List.find?, strLE,
      List.dedup_cons_of_not_mem, DOMAINS, mergeSort_pair]
    norm_num
  refine ⟨heval, ?_⟩
  exact weak_policy_prioritizes_low_score_domain
    [⟨0, "Algebra", 10, 9/10⟩, ⟨0, "Calculus", 10, 1/10⟩] [⟨0, 0, 0, 0, 0, fun _ => 0⟩]
    0 70 _ "Calculus" "Algebra" ⟨0, "Calculus", 10, 1/10⟩ ⟨0, "Algebra", 10, 9/10⟩
    (by decide)
    (List.mem_cons_of_mem _ (List.mem_cons_self _ _)) rfl rfl rfl
    (List.mem_cons_self _ _) rfl rfl rfl
    (by
      intro r hr hs
      rcases List.mem_cons.mp hr with rfl | hr'
      · norm_num
      · rw [List.mem_singleton] at hr'
        subst hr'
        norm_num)
    (by
      intro rw0 hrw
      rw [List.mem_singleton] at hrw
      subst hrw
      norm_num)
    (by norm_num) heval

/-! ## C10: the plan is independent of the engagement score -/

/-- C10.  The weekly plan does not depend on the learner's engagement: the
factor (0.8 + 0.4 * engagement) multiplies every day weight and cancels in the
renormalization, so two Learner tables whose looked-up rows differ only in the
engagement field (both nonnegative, as the data model guarantees) produce
identical plans. -/
theorem plan_independent_of_engagement (df7 : List AggRow)
    (students1 students2 : List Learner) (student_id : ℕ) (priority : String) (goal_h : ℚ)
    (r : Learner) (e2 : ℚ)
    (h1 : students1.find? (fun s => s.student_id == student_id) = some r)
    (h2 : students2.find? (fun s => s.student_id == student_id) =
      some { r with engagement := e2 })
    (he1 : 0 ≤ r.engagement) (he2 : 0 ≤ e2) :
    build_agent_plan df7 students1 student_id priority goal_h =
    build_agent_plan df7 students2 student_id priority goal_h := by
  simp only [build_agent_plan, h1, h2, Option.map_some']
  congr 1
  simp [planCells, dayWeightsNorm_eq _ he1, dayWeightsNorm_eq _ he2]

/-- Witness for C10: two one-row Learner tables differing only in engagement
(0 and 1) yield the same plan. -/
theorem plan_independent_of_engagement_witness :
    ([⟨0, 0, 0, 0, 0, fun _ => 0⟩] : List Learner).find? (fun s => s.student_id == 0) =
      some ⟨0, 0, 0, 0, 0, fun _ => 0⟩ ∧
    build_agent_plan [] [⟨0, 0, 0, 0, 0, fun _ => 0⟩] 0 "weak" 2 =
      build_agent_plan [] [⟨0, 0, 1, 0, 0, fun _ => 0⟩] 0 "weak" 2 :=
  ⟨rfl, plan_independent_of_engagement [] [⟨0, 0, 0, 0, 0, fun _ => 0⟩]
    [⟨0, 0, 1, 0, 0, fun _ => 0⟩] 0 "weak" 2 ⟨0, 0, 0, 0, 0, fun _ => 0⟩ 1 rfl rfl
    (le_refl 0) zero_le_one⟩
